import Mathlib

/-!
Shallow embedding of the SVDB storage engine
(`src/svdb/storage_engine/src/lib.rs`).

Modelling conventions:
* Byte buffers are `List Nat` (each element a byte value).
* The backing RocksDB store is a total map `String → Option Val`, where
  `Val` distinguishes raw byte payloads from serialized `FileMetadata`
  records; this abstracts serde_json with its round-trip contract
  (§ Metadata Codec: `decode (encode m) = m`).  `Val.rawBytes` gives the
  byte form actually sitting in the store (metadata records serialize to
  their JSON byte string).
* The three hash primitives come from external crates (`blake3`,
  `blake2::Blake2b512`, `sha3::Keccak256`); they are modelled as a
  parameter `HashImpl` carrying arbitrary functions with the output
  sizes of the crates (32, 64 and 32 bytes respectively) and byte-valuedness.
  Hex encoding (`hex::encode` / `blake3::Hash::to_hex`, both lowercase)
  is modelled concretely as `hexEncode`.
* `SystemTime::now()` is passed in explicitly as `now : Nat`.
* DB writes cannot fail in the model (the store is a total map), so the
  store path returns plain values rather than `Result`.
* In Rust, `slice::chunks` panics on chunk size 0; `chunksOf` returns `[]`
  there.  `chunk_data` only ever calls it with size ≥ 1024, so the two
  agree on every reachable input.
-/

namespace SVDB

/-- Constant `DEFAULT_CHUNK_SIZE` from the source (1 MiB). -/
def DEFAULT_CHUNK_SIZE : Nat := 1024 * 1024

/-- The closed algorithm enumeration from the source. -/
inductive HashAlgorithm
  | Blake3
  | Blake2b
  | Keccak256
deriving DecidableEq, Repr

/-- `HashAlgorithm::as_str` from the source. -/
def HashAlgorithm.as_str : HashAlgorithm → String
  | .Blake3 => "blake3"
  | .Blake2b => "blake2b"
  | .Keccak256 => "keccak256"

/-- Lowercase hex encoding of a byte list, as `hex::encode` /
`blake3::Hash::to_hex` produce: two hex digits per byte, high nibble
first. -/
def hexEncode (bs : List Nat) : String :=
  ⟨(bs.map (fun b => [Nat.digitChar (b / 16), Nat.digitChar (b % 16)])).flatten⟩

/-- The external hash crates, abstractly: arbitrary functions with the
fixed output sizes of the crates.  `blake3::hash` yields a 32-byte hash,
`Blake2b512` a 64-byte hash, `Keccak256` a 32-byte hash; all outputs are
bytes. -/
structure HashImpl where
  blake3Bytes : List Nat → List Nat
  blake2bBytes : List Nat → List Nat
  keccakBytes : List Nat → List Nat
  blake3_length : ∀ d, (blake3Bytes d).length = 32
  blake2b_length : ∀ d, (blake2bBytes d).length = 64
  keccak_length : ∀ d, (keccakBytes d).length = 32
  blake3_byte_lt : ∀ d, ∀ b ∈ blake3Bytes d, b < 256
  blake2b_byte_lt : ∀ d, ∀ b ∈ blake2bBytes d, b < 256
  keccak_byte_lt : ∀ d, ∀ b ∈ keccakBytes d, b < 256

/-- `calculate_hash_with_algorithm` from the source: hash the bytes with
the selected primitive and hex-encode the result (lowercase). -/
def calculate_hash_with_algorithm (H : HashImpl) (data : List Nat) :
    HashAlgorithm → String
  | .Blake3 => hexEncode (H.blake3Bytes data)
  | .Blake2b => hexEncode (H.blake2bBytes data)
  | .Keccak256 => hexEncode (H.keccakBytes data)

/-- `calculate_hash` from the source: default algorithm Blake3. -/
def calculate_hash (H : HashImpl) (data : List Nat) : String :=
  calculate_hash_with_algorithm H data .Blake3

/-- `FileMetadata` struct from the source. -/
structure FileMetadata where
  hash : String
  algorithm : String
  size : Nat
  chunk_size : Nat
  chunks : List String
  timestamp : Nat
deriving DecidableEq, Repr

/-- `ChunkedFile` struct from the source. -/
structure ChunkedFile where
  metadata : FileMetadata
  chunks : List (List Nat)

/-- UTF-8 bytes of a string (`String::into_bytes`); for the ASCII
strings the engine produces, these are the character codes. -/
def strToBytes (s : String) : List Nat := s.data.map Char.toNat

/-- `data.chunks(n)` from Rust: consecutive slices of length `n`, the
last possibly shorter, none empty; the empty slice yields no chunks.
(Rust panics on `n = 0`; the model returns `[]`, an unreachable case
here since `chunk_data` floors the size at 1024.) -/
def chunksOf (n : Nat) (l : List Nat) : List (List Nat) :=
  if h : n = 0 ∨ l = [] then []
  else l.take n :: chunksOf n (l.drop n)
termination_by l.length
decreasing_by
  push_neg at h
  obtain ⟨h1, h2⟩ := h
  have hl : 0 < l.length := List.length_pos.mpr h2
  simp [List.length_drop]
  omega

/-- `chunk_data` from the source: floor the chunk size at 1024 (using
`DEFAULT_CHUNK_SIZE` below the floor), split, hash each chunk, and hash
the pipe-joined chunk digests to obtain the object digest. -/
def chunk_data (H : HashImpl) (data : List Nat) (chunk_size : Nat)
    (algorithm : HashAlgorithm) (now : Nat) : ChunkedFile :=
  let chunk_size := if chunk_size < 1024 then DEFAULT_CHUNK_SIZE else chunk_size
  let chunks := chunksOf chunk_size data
  let chunk_hashes := chunks.map
    (fun c => calculate_hash_with_algorithm H c algorithm)
  let combined_data := strToBytes (String.intercalate "|" chunk_hashes)
  let file_hash := calculate_hash_with_algorithm H combined_data algorithm
  { metadata :=
      { hash := file_hash
        algorithm := algorithm.as_str
        size := data.length
        chunk_size := chunk_size
        chunks := chunk_hashes
        timestamp := now }
    chunks := chunks }

/-- `StorageError` variants reachable in the model (`IOError`, `DBError`
and `InvalidAlgorithm` cannot arise: the store is a total map and the
algorithm arrives as an already-resolved enum). -/
inductive StorageError
  | HashNotFound (h : String)
  | SerializationError (msg : String)
  | ChunkingError (msg : String)
deriving DecidableEq, Repr

/-- A value in the backing store: either raw payload/chunk bytes or a
serialized metadata record (serde_json abstracted by the codec
round-trip contract). -/
inductive Val
  | bytes (data : List Nat)
  | meta (m : FileMetadata)
deriving DecidableEq, Repr

/-- JSON string literal for the token/hex strings the engine produces
(which never need escaping). -/
def jsonStr (s : String) : String := "\"" ++ s ++ "\""

/-- Byte form of a serialized `FileMetadata`, as `serde_json::to_vec`
produces it (struct field order, no whitespace). -/
def encodeMeta (m : FileMetadata) : List Nat :=
  strToBytes ("\x7b\"hash\":" ++ jsonStr m.hash
    ++ ",\"algorithm\":" ++ jsonStr m.algorithm
    ++ ",\"size\":" ++ Nat.repr m.size
    ++ ",\"chunk_size\":" ++ Nat.repr m.chunk_size
    ++ ",\"chunks\":[" ++ String.intercalate "," (m.chunks.map jsonStr)
    ++ "],\"timestamp\":" ++ Nat.repr m.timestamp ++ "\x7d")

/-- The bytes a `Val` occupies in the store. -/
def Val.rawBytes : Val → List Nat
  | .bytes data => data
  | .meta m => encodeMeta m

/-- Mutable state of the `StorageEngine`: the RocksDB store and the
mutex-guarded in-memory cache. -/
structure EngineState where
  db : String → Option Val
  cache : String → Option (List Nat)

/-- Point update of a map (a `put` / `HashMap::insert`). -/
def upd {β : Type} (f : String → Option β) (k : String) (v : β) :
    String → Option β :=
  fun x => if x = k then some v else f x

/-- Key `meta:<digest>` (`format!("meta:\x7b\x7d", hash)`). -/
def metaKey (hash : String) : String := "meta:" ++ hash

/-- Key `chunk:<digest>:<index>` (`format!("chunk:\x7b\x7d:\x7b\x7d", hash, i)`). -/
def chunkKey (hash : String) (i : Nat) : String :=
  "chunk:" ++ hash ++ ":" ++ Nat.repr i

/-- The chunk-writing loop of `store_with_options`: put each chunk under
`chunk:<digest>:<index>`, indices counted from `i`. -/
def putChunks (db : String → Option Val) (hash : String) :
    Nat → List (List Nat) → (String → Option Val)
  | _, [] => db
  | i, c :: rest => putChunks (upd db (chunkKey hash i) (.bytes c)) hash (i + 1) rest

/-- `StorageEngine::store_with_options` from the source.  Chunked path
when `chunk_size > 0 && data.len() > chunk_size`: write the metadata
record, then each chunk, return the object digest; the cache is not
touched.  Simple path otherwise: write the raw payload under its digest
and populate the cache. -/
def store_with_options (H : HashImpl) (st : EngineState) (data : List Nat)
    (algorithm : HashAlgorithm) (chunk_size : Nat) (now : Nat) :
    String × EngineState :=
  if 0 < chunk_size ∧ chunk_size < data.length then
    let chunked_file := chunk_data H data chunk_size algorithm now
    let db1 := upd st.db (metaKey chunked_file.metadata.hash)
      (.meta chunked_file.metadata)
    let db2 := putChunks db1 chunked_file.metadata.hash 0 chunked_file.chunks
    (chunked_file.metadata.hash, { db := db2, cache := st.cache })
  else
    let hash := calculate_hash_with_algorithm H data algorithm
    (hash, { db := upd st.db hash (.bytes data),
             cache := upd st.cache hash data })

/-- `StorageEngine::store` from the source: Blake3, no chunking. -/
def store (H : HashImpl) (st : EngineState) (data : List Nat) :
    String × EngineState :=
  store_with_options H st data .Blake3 0 0

/-- The chunk-fetch loop of `retrieve`: fetch `k` chunks starting at
index `i`, appending their bytes in order; fail with `ChunkingError`
naming the first missing index. -/
def fetchChunksFrom (db : String → Option Val) (hash : String) :
    Nat → Nat → Except StorageError (List Nat)
  | _, 0 => .ok []
  | i, k + 1 =>
    match db (chunkKey hash i) with
    | some v =>
      match fetchChunksFrom db hash (i + 1) k with
      | .ok rest => .ok (v.rawBytes ++ rest)
      | .error e => .error e
    | none => .error (.ChunkingError ("Chunk " ++ Nat.repr i ++ " not found"))

/-- `StorageEngine::retrieve` from the source: cache first; then the
`meta:` key (chunked path, reassemble and cache); then the raw key
(simple path, cache); else `HashNotFound`.  A non-metadata value under a
`meta:` key fails decoding (`SerializationError`). -/
def retrieve (st : EngineState) (hash : String) :
    Except StorageError (List Nat) × EngineState :=
  match st.cache hash with
  | some data => (.ok data, st)
  | none =>
    match st.db (metaKey hash) with
    | some (.meta metadata) =>
      match fetchChunksFrom st.db hash 0 metadata.chunks.length with
      | .ok data => (.ok data, { st with cache := upd st.cache hash data })
      | .error e => (.error e, st)
    | some (.bytes _) => (.error (.SerializationError "invalid metadata"), st)
    | none =>
      match st.db hash with
      | some v => (.ok v.rawBytes, { st with cache := upd st.cache hash v.rawBytes })
      | none => (.error (.HashNotFound hash), st)

/-! Helper lemmas about chunking. -/

theorem chunksOf_nil (n : Nat) : chunksOf n [] = [] := by
  rw [chunksOf]; simp

theorem chunksOf_cons (n : Nat) (l : List Nat) (hn : n ≠ 0) (hl : l ≠ []) :
    chunksOf n l = l.take n :: chunksOf n (l.drop n) := by
  rw [chunksOf]; simp [hn, hl]

theorem chunksOf_flatten (n : Nat) (hn : n ≠ 0) (l : List Nat) :
    (chunksOf n l).flatten = l := by
  by_cases hl : l = []
  · subst hl; simp [chunksOf_nil]
  · rw [chunksOf_cons n l hn hl, List.flatten_cons,
      chunksOf_flatten n hn (l.drop n)]
    exact List.take_append_drop n l
termination_by l.length
decreasing_by
  have hlp : 0 < l.length := List.length_pos.mpr hl
  simp [List.length_drop]
  omega

/-- The list of chunk lengths produced by `chunksOf`, as a function of
the input length alone. -/
def chunkLens (n m : Nat) : List Nat :=
  if h : n = 0 ∨ m = 0 then [] else min n m :: chunkLens n (m - n)
termination_by m
decreasing_by
  push_neg at h
  omega

theorem chunkLens_zero (n : Nat) : chunkLens n 0 = [] := by
  rw [chunkLens]; simp

theorem chunkLens_pos (n m : Nat) (hn : n ≠ 0) (hm : m ≠ 0) :
    chunkLens n m = min n m :: chunkLens n (m - n) := by
  rw [chunkLens]; simp [hn, hm]

theorem chunksOf_map_length (n : Nat) (hn : n ≠ 0) (l : List Nat) :
    (chunksOf n l).map List.length = chunkLens n l.length := by
  by_cases hl : l = []
  · subst hl; simp [chunksOf_nil, chunkLens_zero]
  · have hlp : 0 < l.length := List.length_pos.mpr hl
    rw [chunksOf_cons n l hn hl, List.map_cons,
      chunksOf_map_length n hn (l.drop n),
      chunkLens_pos n l.length hn (by omega)]
    simp [List.length_take, List.length_drop, Nat.min_comm]
termination_by l.length
decreasing_by
  simp [List.length_drop]
  omega

theorem chunkLens_length (n : Nat) (hn : n ≠ 0) (m : Nat) :
    (chunkLens n m).length = (m + n - 1) / n := by
  by_cases hm : m = 0
  · subst hm
    rw [chunkLens_zero]
    have : n - 1 < n := by omega
    simp [Nat.div_eq_of_lt this]
  · rw [chunkLens_pos n m hn hm, List.length_cons,
      chunkLens_length n hn (m - n)]
    have hsplit : m + n - 1 = (m - 1) + n := by omega
    rw [hsplit, Nat.add_div_right _ (by omega)]
    rcases le_or_lt m n with hle | hlt
    · have h1 : m - n = 0 := by omega
      rw [h1]
      rw [Nat.div_eq_of_lt (show 0 + n - 1 < n by omega),
        Nat.div_eq_of_lt (show m - 1 < n by omega)]
    · have hsplit2 : m - n + n - 1 = (m - 1 - n) + n := by omega
      rw [hsplit2, Nat.add_div_right _ (by omega)]
      have hsplit3 : m - 1 = (m - 1 - n) + n := by omega
      conv_rhs => rw [hsplit3, Nat.add_div_right _ (by omega)]
termination_by m
decreasing_by omega

/-! Helper lemmas about hex encoding. -/

theorem hexEncode_length (bs : List Nat) : (hexEncode bs).length = 2 * bs.length := by
  show ((bs.map (fun b => [Nat.digitChar (b / 16), Nat.digitChar (b % 16)])).flatten).length
    = 2 * bs.length
  induction bs with
  | nil => rfl
  | cons b rest ih => simp [List.flatten_cons, ih]; omega

/-- Membership in the lowercase hex digit alphabet: a decimal digit or a
letter between a and f. -/
def isLowerHexDigit (c : Char) : Prop :=
  ('0' ≤ c ∧ c ≤ '9') ∨ ('a' ≤ c ∧ c ≤ 'f')

instance (c : Char) : Decidable (isLowerHexDigit c) := by
  unfold isLowerHexDigit
  infer_instance

theorem digitChar_mem_hexDigits (d : Nat) (h : d < 16) :
    isLowerHexDigit (Nat.digitChar d) := by
  interval_cases d <;> decide

theorem hexEncode_mem_hexDigits (bs : List Nat) (hb : ∀ b ∈ bs, b < 256) :
    ∀ c ∈ (hexEncode bs).data, isLowerHexDigit c := by
  intro c hc
  show isLowerHexDigit c
  have hc2 : c ∈ (bs.map (fun b => [Nat.digitChar (b / 16), Nat.digitChar (b % 16)])).flatten := hc
  rw [List.mem_flatten] at hc2
  obtain ⟨l, hl, hcl⟩ := hc2
  rw [List.mem_map] at hl
  obtain ⟨b, hbmem, hbl⟩ := hl
  have hblt : b < 256 := hb b hbmem
  subst hbl
  have hcase : c = Nat.digitChar (b / 16) ∨ c = Nat.digitChar (b % 16) := by
    simpa using hcl
  rcases hcase with h1 | h1 <;> (subst h1; exact digitChar_mem_hexDigits _ (by omega))

/-! Injectivity of decimal rendering (`Nat.repr`), needed to separate
the `chunk:<digest>:<index>` keys of distinct indices. -/

/-- Value of a list of decimal digit characters. -/
def decCharsVal (l : List Char) : Nat :=
  l.foldl (fun a c => 10 * a + (c.toNat - 48)) 0

theorem digitChar_toNat (d : Nat) (h : d < 10) : (Nat.digitChar d).toNat = 48 + d := by
  interval_cases d <;> rfl

theorem toDigitsCore_shift (fuel n : Nat) (ds : List Char) :
    Nat.toDigitsCore 10 fuel n ds = Nat.toDigitsCore 10 fuel n [] ++ ds := by
  induction fuel generalizing n ds with
  | zero => simp [Nat.toDigitsCore]
  | succ k ih =>
    simp only [Nat.toDigitsCore]
    by_cases h : n / 10 = 0
    · simp [h]
    · simp only [h, if_false]
      rw [ih (n / 10) [Nat.digitChar (n % 10)], ih (n / 10) (Nat.digitChar (n % 10) :: ds)]
      simp

theorem decCharsVal_append_singleton (l : List Char) (c : Char) :
    decCharsVal (l ++ [c]) = 10 * decCharsVal l + (c.toNat - 48) := by
  simp [decCharsVal, List.foldl_append]

theorem toDigitsCore_val (fuel n : Nat) (h : n < fuel) :
    decCharsVal (Nat.toDigitsCore 10 fuel n []) = n := by
  induction fuel generalizing n with
  | zero => omega
  | succ k ih =>
    simp only [Nat.toDigitsCore]
    by_cases hq : n / 10 = 0
    · simp only [hq, if_true]
      have hn : n < 10 := by omega
      simp [decCharsVal, digitChar_toNat (n % 10) (Nat.mod_lt n (by norm_num))]
      omega
    · simp only [hq, if_false]
      rw [toDigitsCore_shift, decCharsVal_append_singleton]
      have h10 : n / 10 < n := Nat.div_lt_self (by omega) (by norm_num)
      rw [ih (n / 10) (by omega),
        digitChar_toNat (n % 10) (Nat.mod_lt n (by norm_num))]
      omega

theorem repr_val (n : Nat) : decCharsVal (Nat.repr n).data = n := by
  show decCharsVal (Nat.toDigits 10 n).asString.data = n
  rw [List.asString]
  exact toDigitsCore_val (n + 1) n (by omega)

theorem repr_injective (m n : Nat) (h : Nat.repr m = Nat.repr n) : m = n := by
  have := congrArg (fun s => decCharsVal s.data) h
  simpa [repr_val] using this

/-! Key-space separation: `meta:` keys, `chunk:` keys and their indices. -/

theorem metaKey_ne_chunkKey (h1 h2 : String) (i : Nat) :
    metaKey h1 ≠ chunkKey h2 i := by
  intro he
  have hd := congrArg String.data he
  rw [metaKey, chunkKey] at hd
  simp only [String.data_append] at hd
  simp at hd

theorem chunkKey_inj (h : String) (i j : Nat) (he : chunkKey h i = chunkKey h j) :
    i = j := by
  have hd := congrArg String.data he
  rw [chunkKey, chunkKey] at hd
  simp only [String.data_append, List.append_assoc] at hd
  have h1 := List.append_cancel_left hd
  have h2 := List.append_cancel_left h1
  have h3 := List.append_cancel_left h2
  have h4 := congrArg decCharsVal h3
  simpa [repr_val] using h4

/-! Behaviour of the chunk-write and chunk-fetch loops. -/

theorem putChunks_miss (db : String → Option Val) (h : String)
    (cs : List (List Nat)) (i : Nat) (k : String)
    (hk : ∀ j, j < cs.length → k ≠ chunkKey h (i + j)) :
    putChunks db h i cs k = db k := by
  induction cs generalizing db i with
  | nil => rfl
  | cons c rest ih =>
    show putChunks (upd db (chunkKey h i) (.bytes c)) h (i + 1) rest k = db k
    rw [ih _ (i + 1) (fun j hj => by
      have := hk (j + 1) (by simpa using Nat.succ_lt_succ hj)
      simpa [Nat.add_assoc, Nat.add_comm 1 j] using this)]
    have h0 : k ≠ chunkKey h i := by
      have := hk 0 (by simp)
      simpa using this
    simp [upd, h0]

theorem putChunks_hit (db : String → Option Val) (h : String)
    (cs : List (List Nat)) (i j : Nat) (hj : j < cs.length) :
    putChunks db h i cs (chunkKey h (i + j)) = some (.bytes (cs.getD j [])) := by
  induction cs generalizing db i j with
  | nil => simp at hj
  | cons c rest ih =>
    cases j with
    | zero =>
      show putChunks (upd db (chunkKey h i) (.bytes c)) h (i + 1) rest
        (chunkKey h (i + 0)) = some (.bytes c)
      rw [putChunks_miss _ _ _ _ _ (fun j' hj' he => by
        have := chunkKey_inj h (i + 0) (i + 1 + j') he
        omega)]
      simp [upd]
    | succ j' =>
      show putChunks (upd db (chunkKey h i) (.bytes c)) h (i + 1) rest
        (chunkKey h (i + (j' + 1))) = some (.bytes (rest.getD j' []))
      have harith : i + (j' + 1) = (i + 1) + j' := by omega
      rw [harith]
      exact ih _ (i + 1) j' (by simpa using Nat.lt_of_succ_lt_succ hj)

theorem fetchChunksFrom_ok (db : String → Option Val) (h : String)
    (cs : List (List Nat)) (i : Nat)
    (hread : ∀ j, j < cs.length → db (chunkKey h (i + j)) = some (.bytes (cs.getD j []))) :
    fetchChunksFrom db h i cs.length = .ok cs.flatten := by
  induction cs generalizing i with
  | nil => rfl
  | cons c rest ih =>
    have h0 : db (chunkKey h i) = some (.bytes c) := by
      have := hread 0 (by simp)
      simpa using this
    show fetchChunksFrom db h i (rest.length + 1) = .ok ((c :: rest).flatten)
    rw [fetchChunksFrom, h0]
    rw [ih (i + 1) (fun j hj => by
      have := hread (j + 1) (by simpa using Nat.succ_lt_succ hj)
      simpa [Nat.add_assoc, Nat.add_comm 1 j] using this)]
    simp [Val.rawBytes]

theorem fetchChunksFrom_missing (db : String → Option Val) (h : String)
    (k i0 : Nat) (hmiss : ∃ j, j < k ∧ db (chunkKey h (i0 + j)) = none) :
    ∃ j, j < k ∧ db (chunkKey h (i0 + j)) = none ∧
      (∀ j', j' < j → db (chunkKey h (i0 + j')) ≠ none) ∧
      fetchChunksFrom db h i0 k =
        .error (.ChunkingError ("Chunk " ++ Nat.repr (i0 + j) ++ " not found")) := by
  induction k generalizing i0 with
  | zero => obtain ⟨j, hj, _⟩ := hmiss; omega
  | succ k ih =>
    cases hdb : db (chunkKey h i0) with
    | none =>
      refine ⟨0, by omega, by simpa using hdb, by omega, ?_⟩
      rw [fetchChunksFrom]
      simp only [show i0 + 0 = i0 by omega]
      rw [hdb]
    | some v =>
      obtain ⟨j, hj, hjnone⟩ := hmiss
      have hj1 : 1 ≤ j := by
        rcases Nat.eq_zero_or_pos j with h0 | h1
        · subst h0; simp at hjnone; rw [hdb] at hjnone; exact absurd hjnone (by simp)
        · exact h1
      obtain ⟨j2, hj2, hj2none, hj2min, hj2fetch⟩ := ih (i0 + 1)
        ⟨j - 1, by omega, by
          have : i0 + 1 + (j - 1) = i0 + j := by omega
          rw [this]; exact hjnone⟩
      refine ⟨j2 + 1, by omega, ?_, ?_, ?_⟩
      · have : i0 + (j2 + 1) = i0 + 1 + j2 := by omega
        rw [this]; exact hj2none
      · intro j' hj'
        cases j' with
        | zero => simpa using Option.ne_none_iff_isSome.mpr (by simp [hdb])
        | succ j3 =>
          have : i0 + (j3 + 1) = i0 + 1 + j3 := by omega
          rw [this]
          exact hj2min j3 (by omega)
      · rw [fetchChunksFrom, hdb, hj2fetch]
        have : i0 + 1 + j2 = i0 + (j2 + 1) := by omega
        rw [this]

/-! Unfolding lemmas for the store and retrieve paths. -/

theorem store_chunked_eq (H : HashImpl) (st : EngineState) (data : List Nat)
    (a : HashAlgorithm) (C now : Nat) (hC : 0 < C) (hlen : C < data.length) :
    store_with_options H st data a C now =
      ((chunk_data H data C a now).metadata.hash,
        { db := putChunks
            (upd st.db (metaKey (chunk_data H data C a now).metadata.hash)
              (.meta (chunk_data H data C a now).metadata))
            (chunk_data H data C a now).metadata.hash 0
            (chunk_data H data C a now).chunks,
          cache := st.cache }) := by
  rw [store_with_options, if_pos ⟨hC, hlen⟩]

theorem store_simple_eq (H : HashImpl) (st : EngineState) (data : List Nat)
    (a : HashAlgorithm) (C now : Nat) (hnot : ¬(0 < C ∧ C < data.length)) :
    store_with_options H st data a C now =
      (calculate_hash_with_algorithm H data a,
        { db := upd st.db (calculate_hash_with_algorithm H data a) (.bytes data),
          cache := upd st.cache (calculate_hash_with_algorithm H data a) data }) := by
  rw [store_with_options, if_neg hnot]

theorem store_chunked_meta_lookup (H : HashImpl) (st : EngineState)
    (data : List Nat) (a : HashAlgorithm) (C now : Nat)
    (hC : 0 < C) (hlen : C < data.length) :
    (store_with_options H st data a C now).2.db
      (metaKey (store_with_options H st data a C now).1) =
      some (.meta (chunk_data H data C a now).metadata) := by
  rw [store_chunked_eq H st data a C now hC hlen]
  show putChunks _ _ 0 _ _ = _
  rw [putChunks_miss _ _ _ _ _ (fun j hj => metaKey_ne_chunkKey _ _ _)]
  simp [upd]

theorem retrieve_cache_hit (st : EngineState) (d : String) (data : List Nat)
    (hcache : st.cache d = some data) :
    retrieve st d = (.ok data, st) := by
  simp only [retrieve, hcache]

theorem retrieve_chunked_ok (st : EngineState) (d : String) (m : FileMetadata)
    (res : List Nat) (hcache : st.cache d = none)
    (hmeta : st.db (metaKey d) = some (.meta m))
    (hfetch : fetchChunksFrom st.db d 0 m.chunks.length = .ok res) :
    retrieve st d = (.ok res, { st with cache := upd st.cache d res }) := by
  simp only [retrieve, hcache, hmeta, hfetch]

theorem retrieve_chunked_error (st : EngineState) (d : String) (m : FileMetadata)
    (e : StorageError) (hcache : st.cache d = none)
    (hmeta : st.db (metaKey d) = some (.meta m))
    (hfetch : fetchChunksFrom st.db d 0 m.chunks.length = .error e) :
    retrieve st d = (.error e, st) := by
  simp only [retrieve, hcache, hmeta, hfetch]

theorem retrieve_simple_hit (st : EngineState) (d : String) (v : Val)
    (hcache : st.cache d = none) (hmeta : st.db (metaKey d) = none)
    (hdb : st.db d = some v) :
    retrieve st d = (.ok v.rawBytes, { st with cache := upd st.cache d v.rawBytes }) := by
  simp only [retrieve, hcache, hmeta, hdb]

theorem retrieve_not_found (st : EngineState) (d : String)
    (hcache : st.cache d = none) (hmeta : st.db (metaKey d) = none)
    (hdb : st.db d = none) :
    retrieve st d = (.error (.HashNotFound d), st) := by
  simp only [retrieve, hcache, hmeta, hdb]

/-! Concrete data for witness instantiations. -/

/-- A concrete hash implementation with the output sizes of the crates: the
first output byte records the input length mod 256, the rest are
zero. -/
def lenHashImpl : HashImpl where
  blake3Bytes := fun d => (d.length % 256) :: List.replicate 31 0
  blake2bBytes := fun d => (d.length % 256) :: List.replicate 63 0
  keccakBytes := fun d => (d.length % 256) :: List.replicate 31 0
  blake3_length := fun d => by simp
  blake2b_length := fun d => by simp
  keccak_length := fun d => by simp
  blake3_byte_lt := fun d b hb => by
    rcases List.mem_cons.mp hb with h | h
    · subst h; exact Nat.mod_lt _ (by norm_num)
    · rw [List.eq_of_mem_replicate h]; norm_num
  blake2b_byte_lt := fun d b hb => by
    rcases List.mem_cons.mp hb with h | h
    · subst h; exact Nat.mod_lt _ (by norm_num)
    · rw [List.eq_of_mem_replicate h]; norm_num
  keccak_byte_lt := fun d b hb => by
    rcases List.mem_cons.mp hb with h | h
    · subst h; exact Nat.mod_lt _ (by norm_num)
    · rw [List.eq_of_mem_replicate h]; norm_num

/-- The state of a freshly opened engine over an empty store. -/
def emptyState : EngineState := { db := fun _ => none, cache := fun _ => none }

/-! Claim theorems. -/

/-- Claim C1: for every byte buffer and algorithm, storing with
`store_with_options(B, A, 0)` (the simple path) and then retrieving the
returned digest yields exactly the stored bytes. -/
theorem C1_simple_store_roundtrip (H : HashImpl) (st : EngineState)
    (data : List Nat) (a : HashAlgorithm) (now : Nat) :
    (retrieve (store_with_options H st data a 0 now).2
      (store_with_options H st data a 0 now).1).1 = .ok data := by
  rw [store_simple_eq H st data a 0 now (by omega)]
  rw [retrieve_cache_hit _ _ data (by simp [upd])]

/-- Claim C2: a chunked store (`0 < C < |B|`) followed by a retrieve of
the returned digest (no stale cache entry for it) yields exactly the
stored bytes, and the chunk list of the persisted metadata has length
`ceil (|B| / eff)`, where `eff` is `C` for `C ≥ 1024` and
`DEFAULT_CHUNK_SIZE` otherwise. -/
theorem C2_chunked_store_roundtrip (H : HashImpl) (st : EngineState)
    (data : List Nat) (a : HashAlgorithm) (C now : Nat)
    (hC : 0 < C) (hlen : C < data.length)
    (hcache : st.cache (store_with_options H st data a C now).1 = none) :
    (retrieve (store_with_options H st data a C now).2
        (store_with_options H st data a C now).1).1 = .ok data ∧
    ∃ m, (store_with_options H st data a C now).2.db
        (metaKey (store_with_options H st data a C now).1) = some (.meta m) ∧
      m.chunks.length =
        (data.length + (if C < 1024 then DEFAULT_CHUNK_SIZE else C) - 1) /
          (if C < 1024 then DEFAULT_CHUNK_SIZE else C) := by
  have hmeta := store_chunked_meta_lookup H st data a C now hC hlen
  have heq := store_chunked_eq H st data a C now hC hlen
  have heff : (if C < 1024 then DEFAULT_CHUNK_SIZE else C) ≠ 0 := by
    split
    · norm_num [DEFAULT_CHUNK_SIZE]
    · omega
  have hchunks_eq : (chunk_data H data C a now).chunks
      = chunksOf (if C < 1024 then DEFAULT_CHUNK_SIZE else C) data := rfl
  have hmc : (chunk_data H data C a now).metadata.chunks
      = (chunk_data H data C a now).chunks.map
          (fun c => calculate_hash_with_algorithm H c a) := rfl
  have hmclen : (chunk_data H data C a now).metadata.chunks.length
      = (chunk_data H data C a now).chunks.length := by
    rw [hmc, List.length_map]
  constructor
  · have hcache2 : (store_with_options H st data a C now).2.cache
        (store_with_options H st data a C now).1 = none := by
      rw [heq]
      rw [heq] at hcache
      exact hcache
    have hfetch : fetchChunksFrom (store_with_options H st data a C now).2.db
        (store_with_options H st data a C now).1 0
        (chunk_data H data C a now).metadata.chunks.length = .ok data := by
      rw [hmclen, heq]
      show fetchChunksFrom
        (putChunks (upd st.db (metaKey (chunk_data H data C a now).metadata.hash)
            (.meta (chunk_data H data C a now).metadata))
          (chunk_data H data C a now).metadata.hash 0
          (chunk_data H data C a now).chunks)
        (chunk_data H data C a now).metadata.hash 0
        (chunk_data H data C a now).chunks.length = .ok data
      rw [fetchChunksFrom_ok _ _ _ 0 (fun j hj => putChunks_hit _ _ _ 0 j hj)]
      rw [hchunks_eq, chunksOf_flatten _ heff data]
    rw [retrieve_chunked_ok _ _ (chunk_data H data C a now).metadata data
      hcache2 hmeta hfetch]
  · refine ⟨(chunk_data H data C a now).metadata, hmeta, ?_⟩
    rw [hmclen, hchunks_eq]
    have h1 : (chunksOf (if C < 1024 then DEFAULT_CHUNK_SIZE else C) data).length
        = (chunkLens (if C < 1024 then DEFAULT_CHUNK_SIZE else C) data.length).length := by
      have := congrArg List.length (chunksOf_map_length _ heff data)
      simpa using this
    rw [h1, chunkLens_length _ heff]

/-- Witness for C2: a 1025-byte buffer stored with 1024-byte chunks on a
fresh engine round-trips and records `ceil (1025/1024) = 2` chunks. -/
theorem C2_chunked_store_roundtrip_witness :
    (retrieve (store_with_options lenHashImpl emptyState (List.replicate 1025 0)
        .Blake3 1024 0).2
      (store_with_options lenHashImpl emptyState (List.replicate 1025 0)
        .Blake3 1024 0).1).1 = .ok (List.replicate 1025 0) ∧
    ∃ m, (store_with_options lenHashImpl emptyState (List.replicate 1025 0)
        .Blake3 1024 0).2.db
        (metaKey (store_with_options lenHashImpl emptyState (List.replicate 1025 0)
          .Blake3 1024 0).1) = some (.meta m) ∧
      m.chunks.length =
        ((List.replicate 1025 0).length + (if 1024 < 1024 then DEFAULT_CHUNK_SIZE else 1024) - 1) /
          (if 1024 < 1024 then DEFAULT_CHUNK_SIZE else 1024) :=
  C2_chunked_store_roundtrip lenHashImpl emptyState (List.replicate 1025 0)
    .Blake3 1024 0 (by norm_num) (by rw [List.length_replicate]; norm_num) rfl

/-- Claim C3: for a chunked object whose metadata record is present, a
missing chunk entry makes `retrieve` (on a cache miss) fail with a
`ChunkingError` naming the missing index — the first missing one — and
the state is unchanged: no bytes are returned and nothing is cached. -/
theorem C3_missing_chunk_fails (st : EngineState) (d : String) (m : FileMetadata)
    (hcache : st.cache d = none)
    (hmeta : st.db (metaKey d) = some (.meta m))
    (hmiss : ∃ i, i < m.chunks.length ∧ st.db (chunkKey d i) = none) :
    ∃ i, i < m.chunks.length ∧ st.db (chunkKey d i) = none ∧
      (∀ j, j < i → st.db (chunkKey d j) ≠ none) ∧
      retrieve st d =
        (.error (.ChunkingError ("Chunk " ++ Nat.repr i ++ " not found")), st) := by
  obtain ⟨i, hi, hnone⟩ := hmiss
  obtain ⟨j, hj, hjnone, hjmin, hjfetch⟩ :=
    fetchChunksFrom_missing st.db d m.chunks.length 0 ⟨i, hi, by simpa using hnone⟩
  refine ⟨j, hj, by simpa using hjnone, fun j' hj' => by simpa using hjmin j' hj', ?_⟩
  have hr := retrieve_chunked_error st d m _ hcache hmeta hjfetch
  simpa using hr

/-- Metadata record of a chunked object with one chunk, used to witness
C3. -/
def demoMeta : FileMetadata :=
  { hash := "d", algorithm := "blake3", size := 1, chunk_size := 1048576,
    chunks := ["c0"], timestamp := 0 }

/-- Store state holding `demoMeta` under `meta:d` but no chunk entries. -/
def demoMissingChunkState : EngineState :=
  { db := upd (fun _ => none) (metaKey "d") (.meta demoMeta),
    cache := fun _ => none }

/-- Witness for C3: with the metadata present and chunk 0 deleted,
retrieval fails with `ChunkingError` naming index 0. -/
theorem C3_missing_chunk_fails_witness :
    ∃ i, i < demoMeta.chunks.length ∧
      demoMissingChunkState.db (chunkKey "d" i) = none ∧
      (∀ j, j < i → demoMissingChunkState.db (chunkKey "d" j) ≠ none) ∧
      retrieve demoMissingChunkState "d" =
        (.error (.ChunkingError ("Chunk " ++ Nat.repr i ++ " not found")),
          demoMissingChunkState) :=
  C3_missing_chunk_fails demoMissingChunkState "d" demoMeta rfl (by decide)
    ⟨0, by decide, by decide⟩

/-- Claim C4: with no cache entry and no `meta:` record for a digest,
`retrieve` fails with `HashNotFound` carrying the digest when the raw
key is also absent; when the raw key is present it returns the bytes of
that entry and populates the cache with them. -/
theorem C4_unknown_digest (st : EngineState) (d : String)
    (hcache : st.cache d = none) (hmeta : st.db (metaKey d) = none) :
    (st.db d = none → retrieve st d = (.error (.HashNotFound d), st)) ∧
    (∀ v, st.db d = some v →
      retrieve st d =
        (.ok v.rawBytes, { st with cache := upd st.cache d v.rawBytes })) := by
  constructor
  · intro hdb
    exact retrieve_not_found st d hcache hmeta hdb
  · intro v hdb
    exact retrieve_simple_hit st d v hcache hmeta hdb

/-- Store state holding raw bytes `[7, 7]` under the key `"k"`. -/
def demoSimpleState : EngineState :=
  { db := upd (fun _ => none) "k" (.bytes [7, 7]), cache := fun _ => none }

/-- Witness for C4: an unknown digest on an empty store yields
`HashNotFound`; a present raw key yields its bytes and fills the
cache. -/
theorem C4_unknown_digest_witness :
    retrieve emptyState "not-a-real-digest" =
      (.error (.HashNotFound "not-a-real-digest"), emptyState) ∧
    retrieve demoSimpleState "k" =
      (.ok (Val.bytes [7, 7]).rawBytes,
        { demoSimpleState with
            cache := upd demoSimpleState.cache "k" (Val.bytes [7, 7]).rawBytes }) :=
  ⟨(C4_unknown_digest emptyState "not-a-real-digest" rfl rfl).1 rfl,
   (C4_unknown_digest demoSimpleState "k" rfl (by decide)).2 _ (by decide)⟩

/-- Claim C5: on the chunked path, a requested chunk size below 1024 is
replaced by `DEFAULT_CHUNK_SIZE` (1 MiB) and that effective value is
what the `chunk_size` field of the persisted metadata records; a request of
at least 1024 is used as-is. -/
theorem C5_chunk_size_floor (H : HashImpl) (st : EngineState) (data : List Nat)
    (a : HashAlgorithm) (C now : Nat) (hC : 0 < C) (hlen : C < data.length) :
    ∃ m, (store_with_options H st data a C now).2.db
        (metaKey (store_with_options H st data a C now).1) = some (.meta m) ∧
      m.chunk_size = (if C < 1024 then DEFAULT_CHUNK_SIZE else C) := by
  exact ⟨(chunk_data H data C a now).metadata,
    store_chunked_meta_lookup H st data a C now hC hlen, rfl⟩

/-- Witness for C5: requesting 1-byte chunks on a 2-byte payload records
`chunk_size = DEFAULT_CHUNK_SIZE` in the persisted metadata. -/
theorem C5_chunk_size_floor_witness :
    ∃ m, (store_with_options lenHashImpl emptyState [0, 0] .Blake3 1 0).2.db
        (metaKey (store_with_options lenHashImpl emptyState [0, 0] .Blake3 1 0).1)
        = some (.meta m) ∧
      m.chunk_size = (if 1 < 1024 then DEFAULT_CHUNK_SIZE else 1) :=
  C5_chunk_size_floor lenHashImpl emptyState [0, 0] .Blake3 1 0 (by norm_num)
    (by norm_num)

/-- Claim C6: the object digest of the chunked path is the digest,
under the same algorithm, of the byte buffer obtained by joining the
chunk digest strings with `|` — and not (as the concrete instance
shows) the digest of the raw payload bytes. -/
theorem C6_object_digest_hash_of_hashes :
    (∀ (H : HashImpl) (data : List Nat) (C : Nat) (a : HashAlgorithm) (now : Nat),
      (chunk_data H data C a now).metadata.hash =
        calculate_hash_with_algorithm H
          (strToBytes (String.intercalate "|"
            (chunk_data H data C a now).metadata.chunks)) a) ∧
    (chunk_data lenHashImpl [1] 1024 .Blake3 0).metadata.hash ≠
      calculate_hash_with_algorithm lenHashImpl [1] .Blake3 := by
  constructor
  · intro H data C a now
    rfl
  · have h1 : chunksOf 1024 [1] = [[1]] := by
      rw [chunksOf_cons 1024 [1] (by norm_num) (by simp)]
      rw [show List.take 1024 [1] = [1] from rfl, show List.drop 1024 [1] = [] from rfl]
      rw [chunksOf_nil]
    show calculate_hash_with_algorithm lenHashImpl
        (strToBytes (String.intercalate "|"
          ((chunksOf (if 1024 < 1024 then DEFAULT_CHUNK_SIZE else 1024) [1]).map
            (fun c => calculate_hash_with_algorithm lenHashImpl c .Blake3)))) .Blake3
      ≠ calculate_hash_with_algorithm lenHashImpl [1] .Blake3
    rw [if_neg (by norm_num), h1]
    decide

set_option maxRecDepth 8192 in
/-- Counterexample to claim C7 as stated: under the Blake2b
primitive of the code (`Blake2b512`, a 64-byte output) the digest string has 128
characters, not 64. -/
theorem C7_counterexample :
    (calculate_hash_with_algorithm lenHashImpl [] .Blake2b).length ≠ 64 := by
  decide

/-- Claim C7 (amended): Blake3 and Keccak-256 digests are 64 lowercase
hex characters (32-byte outputs); Blake2b digests are 128 (the code
uses Blake2b-512, a 64-byte output); every digest character is a
lowercase hex digit. -/
theorem C7_digest_lengths (H : HashImpl) (data : List Nat) :
    (calculate_hash_with_algorithm H data .Blake3).length = 64 ∧
    (calculate_hash_with_algorithm H data .Keccak256).length = 64 ∧
    (calculate_hash_with_algorithm H data .Blake2b).length = 128 ∧
    ∀ a : HashAlgorithm, ∀ c ∈ (calculate_hash_with_algorithm H data a).data,
      isLowerHexDigit c := by
  refine ⟨?_, ?_, ?_, ?_⟩
  · show (hexEncode (H.blake3Bytes data)).length = 64
    rw [hexEncode_length, H.blake3_length]
  · show (hexEncode (H.keccakBytes data)).length = 64
    rw [hexEncode_length, H.keccak_length]
  · show (hexEncode (H.blake2bBytes data)).length = 128
    rw [hexEncode_length, H.blake2b_length]
  · intro a c hc
    cases a with
    | Blake3 => exact hexEncode_mem_hexDigits _ (H.blake3_byte_lt data) c hc
    | Blake2b => exact hexEncode_mem_hexDigits _ (H.blake2b_byte_lt data) c hc
    | Keccak256 => exact hexEncode_mem_hexDigits _ (H.keccak_byte_lt data) c hc

/-- Evaluation of the chunk-length list for a 3,500,000-byte input at
1 MiB chunks: three full chunks and a 354,272-byte remainder. -/
theorem chunkLens_3500000 :
    chunkLens (1024 * 1024) 3500000 = [1048576, 1048576, 1048576, 354272] := by
  rw [chunkLens_pos (1024 * 1024) 3500000 (by norm_num) (by norm_num)]
  rw [chunkLens_pos (1024 * 1024) (3500000 - 1024 * 1024) (by norm_num) (by norm_num)]
  rw [chunkLens_pos (1024 * 1024) (3500000 - 1024 * 1024 - 1024 * 1024)
    (by norm_num) (by norm_num)]
  rw [chunkLens_pos (1024 * 1024) (3500000 - 1024 * 1024 - 1024 * 1024 - 1024 * 1024)
    (by norm_num) (by norm_num)]
  rw [show 3500000 - 1024 * 1024 - 1024 * 1024 - 1024 * 1024 - 1024 * 1024 = 0 by norm_num]
  rw [chunkLens_zero]
  norm_num [Nat.min_def]

/-- Mapping the chunks of a 3,500,000-byte buffer at 1 MiB chunk size to
their lengths. -/
theorem chunk_data_3500000_map_length (H : HashImpl) (a : HashAlgorithm)
    (now : Nat) (data : List Nat) (hlen : data.length = 3500000) :
    (chunk_data H data (1024 * 1024) a now).chunks.map List.length =
      [1048576, 1048576, 1048576, 354272] := by
  have hchunks : (chunk_data H data (1024 * 1024) a now).chunks
      = chunksOf (1024 * 1024) data := by
    show chunksOf (if 1024 * 1024 < 1024 then DEFAULT_CHUNK_SIZE else 1024 * 1024) data
      = chunksOf (1024 * 1024) data
    rw [if_neg (by norm_num)]
  rw [hchunks, chunksOf_map_length _ (by norm_num) data, hlen, chunkLens_3500000]

/-- Counterexample to claim C8 as stated: for the 3,500,000-byte buffer
of value 1 at 1 MiB chunks, the last chunk has 354,272 bytes
(3,500,000 − 3·1,048,576), not the claimed 452,608. -/
theorem C8_counterexample :
    ¬ ((chunk_data lenHashImpl (List.replicate 3500000 1) (1024 * 1024) .Blake3 0).chunks.map
        List.length = [1048576, 1048576, 1048576, 452608]) := by
  rw [chunk_data_3500000_map_length lenHashImpl .Blake3 0 (List.replicate 3500000 1)
    (by rw [List.length_replicate])]
  decide

/-- Claim C8 (amended): chunking a 3,500,000-byte buffer with a 1 MiB
chunk size produces exactly 4 chunks; the first three have length
1,048,576 and the last has length 354,272 (= 3,500,000 − 3·1,048,576). -/
theorem C8_chunk_lengths (H : HashImpl) (a : HashAlgorithm) (now : Nat)
    (data : List Nat) (hlen : data.length = 3500000) :
    (chunk_data H data (1024 * 1024) a now).chunks.length = 4 ∧
    (chunk_data H data (1024 * 1024) a now).chunks.map List.length =
      [1048576, 1048576, 1048576, 354272] := by
  have hmap := chunk_data_3500000_map_length H a now data hlen
  constructor
  · have := congrArg List.length hmap
    simpa using this
  · exact hmap

/-- Witness for C8 (amended) on the concrete all-ones buffer. -/
theorem C8_chunk_lengths_witness :
    (chunk_data lenHashImpl (List.replicate 3500000 1) (1024 * 1024) .Blake3 0).chunks.length
      = 4 ∧
    (chunk_data lenHashImpl (List.replicate 3500000 1) (1024 * 1024) .Blake3 0).chunks.map
      List.length = [1048576, 1048576, 1048576, 354272] :=
  C8_chunk_lengths lenHashImpl .Blake3 0 (List.replicate 3500000 1)
    (by rw [List.length_replicate])

/-- Claim C9: a store that takes the chunked path leaves the in-memory
cache exactly as it was — neither the object digest nor any chunk
digest is inserted. -/
theorem C9_chunked_store_cache_frame (H : HashImpl) (st : EngineState)
    (data : List Nat) (a : HashAlgorithm) (C now : Nat)
    (hC : 0 < C) (hlen : C < data.length) :
    (store_with_options H st data a C now).2.cache = st.cache := by
  rw [store_chunked_eq H st data a C now hC hlen]

/-- Witness for C9 at a concrete chunked store. -/
theorem C9_chunked_store_cache_frame_witness :
    (store_with_options lenHashImpl emptyState (List.replicate 1025 0)
        .Blake3 1024 0).2.cache = emptyState.cache :=
  C9_chunked_store_cache_frame lenHashImpl emptyState (List.replicate 1025 0)
    .Blake3 1024 0 (by norm_num) (by rw [List.length_replicate]; norm_num)

/-- Claim C10: `chunk_data` on the empty input produces no chunks and a
metadata record with an empty chunk list and size 0; and
`store_with_options` sends the empty payload down the simple path for
every chunk size. -/
theorem C10_empty_payload (H : HashImpl) (st : EngineState) (a : HashAlgorithm)
    (cs now : Nat) :
    (chunk_data H [] cs a now).chunks = [] ∧
    (chunk_data H [] cs a now).metadata.chunks = [] ∧
    (chunk_data H [] cs a now).metadata.size = 0 ∧
    store_with_options H st [] a cs now =
      (calculate_hash_with_algorithm H [] a,
        { db := upd st.db (calculate_hash_with_algorithm H [] a) (.bytes []),
          cache := upd st.cache (calculate_hash_with_algorithm H [] a) [] }) := by
  refine ⟨?_, ?_, rfl, ?_⟩
  · show chunksOf (if cs < 1024 then DEFAULT_CHUNK_SIZE else cs) [] = []
    exact chunksOf_nil _
  · show (chunksOf (if cs < 1024 then DEFAULT_CHUNK_SIZE else cs) []).map
      (fun c => calculate_hash_with_algorithm H c a) = []
    rw [chunksOf_nil]
    rfl
  · exact store_simple_eq H st [] a cs now (by simp)

end SVDB
